import Mathlib

/-!
Verification of the real-time room synchronization core of the
watchparty frontend.

The definitions below are a shallow embedding of the TypeScript source:

* types from `src/types` (Participant, PlaybackState, ChatMessage,
  RoomInfo, VoiceParticipant);
* the socket event handlers of the `useRoom` hook (participant
  reconciliation, playback state, chat log, media change) and its
  outbound actions (`sendMessage`, `play`, `pause`, `seek`);
* the drift-correction sync effect and host-guarded control handlers of
  `VideoPlayer`;
* the voice-mesh coordinator of `VoiceCall` (peer-connection map,
  roster/joined/left/muted handlers, offer and ICE-candidate handlers).

Numbers that are `number` in TypeScript are modelled as rationals (ℚ);
each React `setState` handler becomes a pure transition function on the
corresponding state.
-/

namespace WatchParty

/-- Role of a room participant, from `src/types` (`ParticipantRole`). -/
inductive ParticipantRole where
  | host
  | guest
deriving DecidableEq, Repr

/-- Room participant, from `src/types` (`Participant`). -/
structure Participant where
  id : String
  name : String
  role : ParticipantRole
  avatarColor : String
  joinedAt : String
deriving DecidableEq, Repr

/-- Shared playback snapshot, from `src/types` (`PlaybackState`).
`lastUpdated` is a wall-clock timestamp in milliseconds. -/
structure PlaybackState where
  isPlaying : Bool
  currentTime : ℚ
  playbackRate : ℚ
  lastUpdated : ℚ
deriving DecidableEq, Repr

/-- Chat entry, from `src/types` (`ChatMessage`). -/
structure ChatMessage where
  id : String
  roomId : String
  senderId : String
  senderName : String
  content : String
  timestamp : String
deriving DecidableEq, Repr

/-- Media kind, from `src/types` (`RoomInfo.mediaType`). -/
inductive MediaType where
  | video
  | iframe
  | youtube
  | hyperbeam
deriving DecidableEq, Repr

/-- Room metadata, from `src/types` (`RoomInfo`); the optional
Hyperbeam session is reduced to its embed url. -/
structure RoomInfo where
  id : String
  name : String
  hostName : String
  participantCount : Nat
  mediaUrl : String
  mediaType : MediaType
  playbackState : PlaybackState
  hyperbeamEmbedUrl : Option String
deriving DecidableEq, Repr

/-! ### Room state reconciliation (useRoom handlers) -/

/-- Handler for `room:host-changed` in `useRoom`: a single state update
mapping every participant to role `host` when its id equals the new host
id and to `guest` otherwise. -/
def applyHostChanged (ps : List Participant) (newHostId : String) :
    List Participant :=
  ps.map fun p =>
    { p with role := if p.id = newHostId then .host else .guest }

/-- Handler for `room:participant-joined` in `useRoom`: insert only if
no participant with the same id is present. -/
def applyParticipantJoined (ps : List Participant) (p : Participant) :
    List Participant :=
  if ps.any fun q => q.id = p.id then ps else ps ++ [p]

/-- Handler for `room:participant-left` in `useRoom`: remove by id. -/
def applyParticipantLeft (ps : List Participant) (pid : String) :
    List Participant :=
  ps.filter fun p => p.id ≠ pid

/-- Number of participants currently marked as host. -/
def countHosts (ps : List Participant) : Nat :=
  ps.countP fun p => p.role = ParticipantRole.host

/-! ### Chat log (useRoom handlers) -/

/-- Handler for `chat:message` in `useRoom`: the incoming message is
appended unconditionally (`setMessages(prev => [...prev, message])`). -/
def applyChatMessage (log : List ChatMessage) (m : ChatMessage) :
    List ChatMessage :=
  log ++ [m]

/-- Handler for `chat:history` in `useRoom`: the history snapshot
replaces the local log wholesale. -/
def applyChatHistory (_log : List ChatMessage) (history : List ChatMessage) :
    List ChatMessage :=
  history

/-! ### Playback state events (useRoom handlers) -/

/-- Inbound playback events handled by `useRoom`. -/
inductive PlaybackEvent where
  | sync (state : PlaybackState)
  | play (currentTime : ℚ)
  | pause (currentTime : ℚ)
  | seek (currentTime : ℚ)
deriving DecidableEq, Repr

/-- Handlers for `playback:sync` / `playback:play` / `playback:pause` /
`playback:seek` in `useRoom`. `now` is the value of `Date.now()` (ms) at
the moment the handler runs; the sync handler replaces the whole state
with the server payload. -/
def applyPlaybackEvent (now : ℚ) (st : PlaybackState) :
    PlaybackEvent → PlaybackState
  | .sync s => s
  | .play t =>
      { st with isPlaying := true, currentTime := t, lastUpdated := now }
  | .pause t =>
      { st with isPlaying := false, currentTime := t, lastUpdated := now }
  | .seek t =>
      { st with currentTime := t, lastUpdated := now }

/-! ### Media change (useRoom handler) -/

/-- Handler for `media:changed` in `useRoom`: one transition updating
both pieces of state touched by the handler. The room info keeps its
other fields and takes the new media identity (when a room info exists);
the playback state is replaced by the fixed reset snapshot, ignoring the
previous playback state entirely. -/
def applyMediaChanged (now : ℚ) (ri : Option RoomInfo)
    (_ps : PlaybackState) (mediaUrl : String) (mediaType : MediaType) :
    Option RoomInfo × PlaybackState :=
  (match ri with
    | some r => some { r with mediaUrl := mediaUrl, mediaType := mediaType }
    | none => none,
   { isPlaying := false, currentTime := 0, playbackRate := 1,
     lastUpdated := now })

/-! ### Outbound commands (useRoom actions) -/

/-- Commands the client can emit over the socket. -/
inductive Command where
  | chatSend (content : String)
  | playbackPlay (t : ℚ)
  | playbackPause (t : ℚ)
  | playbackSeek (t : ℚ)
  | mediaChange (url : String) (ty : MediaType)
deriving DecidableEq, Repr

/-- Whitespace test matching what JavaScript `String.prototype.trim`
strips for the characters that occur in chat input (space, tab, newline,
carriage return). -/
def isWsChar (c : Char) : Bool :=
  c = ' ' || c = '\t' || c = '\n' || c = '\r'

/-- Model of JavaScript `content.trim()`: drop leading and trailing
whitespace characters. -/
def jsTrim (s : String) : String :=
  ⟨((s.data.dropWhile isWsChar).reverse.dropWhile isWsChar).reverse⟩

/-- `sendMessage` from `useRoom`: emits `chat:send` iff the trimmed
content is truthy (non-empty) and the socket ref is non-null; it touches
no other state. -/
def sendMessage (socketPresent : Bool) (content : String) :
    Option Command :=
  if jsTrim content ≠ "" ∧ socketPresent = true then
    some (.chatSend content)
  else none

/-- `play` from `useRoom`: emits whenever the socket ref is non-null;
the local role is not consulted. -/
def roomPlay (socketPresent : Bool) (t : ℚ) : Option Command :=
  if socketPresent then some (.playbackPlay t) else none

/-- `pause` from `useRoom`: emits whenever the socket ref is non-null;
the local role is not consulted. -/
def roomPause (socketPresent : Bool) (t : ℚ) : Option Command :=
  if socketPresent then some (.playbackPause t) else none

/-- `seek` from `useRoom`: emits whenever the socket ref is non-null;
the local role is not consulted. -/
def roomSeek (socketPresent : Bool) (t : ℚ) : Option Command :=
  if socketPresent then some (.playbackSeek t) else none

/-! ### VideoPlayer: drift correction and host-guarded control handlers -/

/-- Drift threshold of the `VideoPlayer` sync effect
(`const SYNC_THRESHOLD = 2`), in seconds. -/
def SYNC_THRESHOLD : ℚ := 2

/-- Sync effect of `VideoPlayer`: given the authoritative playback state,
the wall clock `now` (ms, the value of `Date.now()`) and the local
element position `localTime` (s), compute the expected position
(`currentTime + (now - lastUpdated) / 1000` when playing, `currentTime`
when paused) and force-seek exactly when the absolute drift exceeds
`SYNC_THRESHOLD`. Returns the resulting element position and whether a
corrective seek was performed. -/
def syncVideo (st : PlaybackState) (now localTime : ℚ) : ℚ × Bool :=
  let timeSinceUpdate := (now - st.lastUpdated) / 1000
  let expectedTime :=
    if st.isPlaying then st.currentTime + timeSinceUpdate else st.currentTime
  let drift := |localTime - expectedTime|
  if drift > SYNC_THRESHOLD then (expectedTime, true) else (localTime, false)

/-- `handlePlay` of `VideoPlayer`: forwards the element position to the
`useRoom` `play` action only when the local client is host, no corrective
sync is in flight, and a video element exists. -/
def handlePlay (isHost isSyncing videoPresent socketPresent : Bool)
    (videoTime : ℚ) : Option Command :=
  if isHost ∧ ¬isSyncing ∧ videoPresent then
    roomPlay socketPresent videoTime
  else none

/-- `handlePause` of `VideoPlayer`: same guard as `handlePlay`, forwarding
to the `useRoom` `pause` action. -/
def handlePause (isHost isSyncing videoPresent socketPresent : Bool)
    (videoTime : ℚ) : Option Command :=
  if isHost ∧ ¬isSyncing ∧ videoPresent then
    roomPause socketPresent videoTime
  else none

/-- `handleSeek` of `VideoPlayer`: same guard as `handlePlay`, forwarding
to the `useRoom` `seek` action. -/
def handleSeek (isHost isSyncing videoPresent socketPresent : Bool)
    (videoTime : ℚ) : Option Command :=
  if isHost ∧ ¬isSyncing ∧ videoPresent then
    roomSeek socketPresent videoTime
  else none

/-! ### Voice mesh coordinator (VoiceCall) -/

/-- Voice roster entry as used by `VoiceCall` (id, display name, mute
flag). -/
structure VoiceParticipant where
  id : String
  name : String
  isMuted : Bool
deriving DecidableEq, Repr

/-- Association-list model of the JavaScript `Map` held in
`peerConnectionsRef`, mapping a remote participant id to the identity of
the `RTCPeerConnection` object currently stored for it. `Map.set`
replaces the value in place when the key exists and appends otherwise. -/
def mapSet (m : List (String × Nat)) (k : String) (v : Nat) :
    List (String × Nat) :=
  match m with
  | [] => [(k, v)]
  | e :: rest => if e.1 = k then (k, v) :: rest else e :: mapSet rest k v

/-- `Map.get`: the value stored for `k`, if any. -/
def mapGet (m : List (String × Nat)) (k : String) : Option Nat :=
  match m with
  | [] => none
  | e :: rest => if e.1 = k then some e.2 else mapGet rest k

/-- `Map.delete`: remove any entry for `k`. -/
def mapDelete (m : List (String × Nat)) (k : String) :
    List (String × Nat) :=
  m.filter fun e => e.1 ≠ k

/-- State of the `VoiceCall` component relevant to the mesh coordinator.
`pcMap` is `peerConnectionsRef`; `openPcs` records every
`RTCPeerConnection` constructed so far and not yet closed, tagged with
the remote id it was created for; `nextPc` allocates fresh connection
identities. -/
structure VoiceState where
  nextPc : Nat
  pcMap : List (String × Nat)
  openPcs : List (String × Nat)
  voiceParticipants : List VoiceParticipant
  isInCall : Bool
  hasLocalStream : Bool
  hasSocket : Bool
deriving DecidableEq, Repr

/-- `createPeerConnection` of `VoiceCall`: bails out when the socket or
the local stream is missing; otherwise it unconditionally constructs a
fresh `RTCPeerConnection` and stores it in the map under the remote id
(overwriting, without closing, any connection previously stored there).
The initiator flag only affects which signaling messages are sent and is
irrelevant to the connection bookkeeping. -/
def createPeerConnection (st : VoiceState) (peerId : String)
    (_isInitiator : Bool) : VoiceState :=
  if st.hasSocket ∧ st.hasLocalStream then
    { st with
        nextPc := st.nextPc + 1
        pcMap := mapSet st.pcMap peerId st.nextPc
        openPcs := st.openPcs ++ [(peerId, st.nextPc)] }
  else st

/-- `cleanupPeerConnection` of `VoiceCall`: close and drop the connection
stored for `peerId`, if any. -/
def cleanupPeerConnection (st : VoiceState) (peerId : String) :
    VoiceState :=
  match mapGet st.pcMap peerId with
  | some pc =>
      { st with
          pcMap := mapDelete st.pcMap peerId
          openPcs := st.openPcs.filter fun e => e.2 ≠ pc }
  | none => st

/-- Handler for `voice:participants` in `VoiceCall`: the roster (minus
the local id) replaces the participant list, and for every other roster
member, when in call, a peer connection is created in initiator role —
unconditionally, with no check for an existing connection. -/
def onVoiceParticipants (me : String) (st : VoiceState)
    (roster : List VoiceParticipant) : VoiceState :=
  let st1 := { st with voiceParticipants := roster.filter fun p => p.id ≠ me }
  roster.foldl
    (fun s p =>
      if p.id ≠ me ∧ s.isInCall then createPeerConnection s p.id true else s)
    st1

/-- Handler for `voice:participant-joined` in `VoiceCall`: any existing
entry with the same id is removed before the new entry is appended; when
in call and the joiner is not the local participant a peer connection is
created in responder role — unconditionally, with no check for an
existing connection. -/
def onVoiceParticipantJoined (me : String) (st : VoiceState)
    (p : VoiceParticipant) : VoiceState :=
  let st1 :=
    { st with
        voiceParticipants :=
          (st.voiceParticipants.filter fun q => q.id ≠ p.id) ++ [p] }
  if st1.isInCall ∧ p.id ≠ me then createPeerConnection st1 p.id false
  else st1

/-- Handler for `voice:participant-left` in `VoiceCall`: remove the
roster entry and clean up the stored connection. -/
def onVoiceParticipantLeft (st : VoiceState) (pid : String) : VoiceState :=
  cleanupPeerConnection
    { st with
        voiceParticipants := st.voiceParticipants.filter fun p => p.id ≠ pid }
    pid

/-- Handler for `voice:participant-muted` in `VoiceCall`: update the mute
flag of the matching roster entry. -/
def onVoiceParticipantMuted (st : VoiceState) (pid : String) (m : Bool) :
    VoiceState :=
  { st with
      voiceParticipants :=
        st.voiceParticipants.map fun p =>
          if p.id = pid then { p with isMuted := m } else p }

/-- Handler for `voice:offer` in `VoiceCall`: a peer connection is
created for the sender only when none is stored for it (the remote
description / answer exchange does not change the bookkeeping modelled
here). -/
def onVoiceOffer (_me : String) (st : VoiceState) (fromId : String) :
    VoiceState :=
  match mapGet st.pcMap fromId with
  | some _ => st
  | none => createPeerConnection st fromId false

/-- Outcome of the `voice:ice-candidate` handler for one candidate. -/
inductive IceOutcome where
  | handedToTransport (pc : Nat)
  | dropped
deriving DecidableEq, Repr

/-- Handler for `voice:ice-candidate` in `VoiceCall`: when a connection
is stored for the sender and the payload carries a candidate, the
candidate is passed straight to that connection's `addIceCandidate`;
otherwise the handler does nothing — there is no buffer, so the
candidate is lost. The component state is unchanged in either case. -/
def onIceCandidate (st : VoiceState) (fromId : String)
    (candidatePresent : Bool) : IceOutcome :=
  match mapGet st.pcMap fromId with
  | some pc => if candidatePresent then .handedToTransport pc else .dropped
  | none => .dropped

/-- Voice-channel events dispatched by the `VoiceCall` socket effect. -/
inductive VoiceEvent where
  | roster (ps : List VoiceParticipant)
  | joined (p : VoiceParticipant)
  | left (pid : String)
  | muted (pid : String) (m : Bool)
  | offer (fromId : String)
deriving DecidableEq, Repr

/-- Dispatch one voice event to its handler. -/
def applyVoiceEvent (me : String) (st : VoiceState) : VoiceEvent → VoiceState
  | .roster ps => onVoiceParticipants me st ps
  | .joined p => onVoiceParticipantJoined me st p
  | .left pid => onVoiceParticipantLeft st pid
  | .muted pid m => onVoiceParticipantMuted st pid m
  | .offer fromId => onVoiceOffer me st fromId

/-- Replay a sequence of voice events. -/
def applyVoiceEvents (me : String) (st : VoiceState)
    (events : List VoiceEvent) : VoiceState :=
  events.foldl (applyVoiceEvent me) st

/-- Number of open (constructed and never closed) peer connections whose
remote end is `id`. -/
def openCountFor (st : VoiceState) (id : String) : Nat :=
  (st.openPcs.filter fun e => e.1 = id).length

/-! ### Helper lemmas -/

/-- Updating roles on a host change leaves the list of participant ids
unchanged. -/
lemma applyHostChanged_ids (ps : List Participant) (h : String) :
    (applyHostChanged ps h).map Participant.id = ps.map Participant.id := by
  induction ps with
  | nil => rfl
  | cons _ rest _ =>
      simp [applyHostChanged]

/-- After a host-change update, the number of hosts equals the number of
occurrences of the new host id among the participant ids. -/
lemma countHosts_applyHostChanged (ps : List Participant) (h : String) :
    countHosts (applyHostChanged ps h) = (ps.map Participant.id).count h := by
  induction ps with
  | nil => rfl
  | cons p rest ih =>
      by_cases hp : p.id = h
      · simp [applyHostChanged, countHosts, List.countP_cons,
          List.count_cons, hp] at ih ⊢
        omega
      · simp [applyHostChanged, countHosts, List.countP_cons,
          List.count_cons, hp, Ne.symm hp] at ih ⊢
        omega

/-- Sample participants used in concrete witnesses. -/
def pA : Participant := ⟨"a", "Alice", .host, "red", "t0"⟩

/-- Second sample participant. -/
def pB : Participant := ⟨"b", "Bob", .guest, "blue", "t1"⟩

/-- C1: for every finite, nonempty sequence of host-changed events whose
new-host ids all occur in a participant list with distinct ids, exactly
one participant has role host after replaying the sequence; moreover a
single host-change update marks exactly the named participant as host
and demotes every other participant to guest. -/
theorem hostChanged_exactly_one_host :
    ∀ (events : List String), events ≠ [] →
    ∀ (ps : List Participant), (ps.map Participant.id).Nodup →
    (∀ e ∈ events, e ∈ ps.map Participant.id) →
    countHosts (events.foldl applyHostChanged ps) = 1 ∧
    (∀ h p, p ∈ applyHostChanged ps h →
      (p.role = ParticipantRole.host ↔ p.id = h)) := by
  intro events
  induction events with
  | nil => intro h; exact absurd rfl h
  | cons e rest ih =>
      intro _ ps hnd hmem
      have hroles : ∀ h p, p ∈ applyHostChanged ps h →
          (p.role = ParticipantRole.host ↔ p.id = h) := by
        intro h p hp
        rcases List.mem_map.mp hp with ⟨q, _, rfl⟩
        by_cases hq : q.id = h <;> simp [hq]
      refine ⟨?_, hroles⟩
      cases rest with
      | nil =>
          simp only [List.foldl]
          rw [countHosts_applyHostChanged]
          exact List.count_eq_one_of_mem hnd (hmem e (List.mem_cons_self e []))
      | cons e2 rest2 =>
          rw [List.foldl_cons]
          refine (ih (by simp) (applyHostChanged ps e) ?_ ?_).1
          · rw [applyHostChanged_ids]; exact hnd
          · intro x hx
            rw [applyHostChanged_ids]
            exact hmem x (List.mem_cons_of_mem _ hx)

/-- Witness for C1 at a concrete input: two participants with distinct
ids, host moved to Bob and then back to Alice; exactly one host
remains. -/
theorem hostChanged_exactly_one_host_witness :
    countHosts (List.foldl applyHostChanged [pA, pB] ["b", "a"]) = 1 :=
  (hostChanged_exactly_one_host ["b", "a"] (by simp) [pA, pB]
    (by decide) (by decide)).1

/-- C2: the guest sync step computes the expected position as
`positionSeconds + (now − lastUpdated)` expressed in seconds (the
wall-clock difference is in milliseconds, hence the division by 1000)
when playing and as `positionSeconds` when paused, force-seeks the local
element to the expected position exactly when the absolute drift exceeds
2.0 seconds, and leaves the local position untouched when the drift is
at most 2.0 seconds. -/
theorem syncVideo_drift_correction (st : PlaybackState)
    (now localTime expected : ℚ)
    (hexp : expected =
      if st.isPlaying = true then
        st.currentTime + (now - st.lastUpdated) / 1000
      else st.currentTime) :
    (|localTime - expected| > 2 →
      syncVideo st now localTime = (expected, true)) ∧
    (|localTime - expected| ≤ 2 →
      syncVideo st now localTime = (localTime, false)) := by
  subst hexp
  constructor
  · intro h
    simp only [syncVideo, SYNC_THRESHOLD]
    rw [if_pos h]
  · intro h
    simp only [syncVideo, SYNC_THRESHOLD]
    rw [if_neg (not_lt.mpr h)]

/-- Witness for C2 at concrete inputs: playing at position 10 with a
3-second-old timestamp gives expected position 13; a local position of
20 (drift 7) is snapped to 13, a local position of 12 (drift 1) is left
alone. -/
theorem syncVideo_drift_correction_witness :
    syncVideo ⟨true, 10, 1, 1000⟩ 4000 20 = (13, true) ∧
    syncVideo ⟨true, 10, 1, 1000⟩ 4000 12 = (12, false) := by
  constructor
  · exact (syncVideo_drift_correction ⟨true, 10, 1, 1000⟩ 4000 20 13
      (by norm_num)).1 (by norm_num)
  · exact (syncVideo_drift_correction ⟨true, 10, 1, 1000⟩ 4000 12 13
      (by norm_num)).2 (by norm_num)

/-- Sample chat message used in the C3 counterexample. -/
def dupMsg : ChatMessage := ⟨"m1", "room", "alice", "Alice", "hi", "t0"⟩

/-- C3 counterexample: delivering a live message whose id is already in
the log appends it anyway — the handler performs no id check — so the
log ends with two entries carrying id `m1`. -/
theorem chat_duplicate_counterexample :
    applyChatMessage [dupMsg] dupMsg = [dupMsg, dupMsg] ∧
    ¬ ((applyChatMessage [dupMsg] dupMsg).map ChatMessage.id).Nodup := by
  constructor
  · rfl
  · decide

/-- C3 amended: the live-message handler appends unconditionally (the
log after replaying any sequence of live messages is the old log
followed by the messages in arrival order, so the log is append-only but
admits duplicate ids), and a history snapshot replaces the log
wholesale. -/
theorem chat_log_append_only (log ms : List ChatMessage) :
    List.foldl applyChatMessage log ms = log ++ ms ∧
    ∀ history, applyChatHistory log history = history := by
  constructor
  · induction ms generalizing log with
    | nil => simp
    | cons m rest ih =>
        simp only [List.foldl_cons, applyChatMessage, ih, List.append_assoc,
          List.singleton_append]
  · intro _; rfl

/-- C4 counterexample: the `useRoom` command constructors never consult
the local role, so in a local state whose role is guest (≠ host) with a
socket attached, `play`, `pause` and `seek` all emit playback
commands. -/
theorem nonhost_commands_counterexample :
    ParticipantRole.guest ≠ ParticipantRole.host ∧
    roomPlay true 5 = some (.playbackPlay 5) ∧
    roomPause true 5 = some (.playbackPause 5) ∧
    roomSeek true 5 = some (.playbackSeek 5) := by
  refine ⟨by decide, rfl, rfl, rfl⟩

/-- C4 amended: the non-host guard lives only in the `VideoPlayer` UI
event handlers — with `isHost = false` they emit nothing — while the
`useRoom` command constructors emit whenever a socket is attached,
regardless of role. -/
theorem nonhost_guard_only_in_ui (isSyncing videoPresent socketPresent : Bool)
    (t : ℚ) :
    handlePlay false isSyncing videoPresent socketPresent t = none ∧
    handlePause false isSyncing videoPresent socketPresent t = none ∧
    handleSeek false isSyncing videoPresent socketPresent t = none ∧
    (socketPresent = true →
      roomPlay socketPresent t = some (.playbackPlay t) ∧
      roomPause socketPresent t = some (.playbackPause t) ∧
      roomSeek socketPresent t = some (.playbackSeek t)) := by
  refine ⟨?_, ?_, ?_, fun h => ?_⟩
  · simp [handlePlay]
  · simp [handlePause]
  · simp [handleSeek]
  · subst h
    exact ⟨rfl, rfl, rfl⟩

/-- Witness for C4 amended at a concrete input. -/
theorem nonhost_guard_only_in_ui_witness :
    handlePlay false false true true 5 = none ∧
    roomPlay true 5 = some (.playbackPlay 5) :=
  ⟨(nonhost_guard_only_in_ui false true true 5).1,
   ((nonhost_guard_only_in_ui false true true 5).2.2.2 rfl).1⟩

/-- Sample room info used in concrete witnesses. -/
def sampleRoom : RoomInfo :=
  ⟨"r1", "Movie night", "Alice", 2, "old.mp4", .video, ⟨true, 50, 1, 99⟩, none⟩

/-- C7: the media-changed handler replaces the playback state, whatever
it was, with exactly the reset snapshot (paused, position 0, rate 1.0,
timestamped now), and the same transition installs the new media
identity on the room info, so no old-media position survives into the
new media. -/
theorem mediaChanged_resets_playback (now : ℚ) (ri : Option RoomInfo)
    (ps : PlaybackState) (url : String) (ty : MediaType) :
    (applyMediaChanged now ri ps url ty).2 =
      { isPlaying := false, currentTime := 0, playbackRate := 1,
        lastUpdated := now } ∧
    (∀ r, ri = some r →
      (applyMediaChanged now ri ps url ty).1 =
        some { r with mediaUrl := url, mediaType := ty }) := by
  refine ⟨rfl, fun r hr => ?_⟩
  subst hr
  rfl

/-- Witness for C7 at a concrete input: changing to a YouTube url from a
playing state at position 50 yields the reset playback state and the new
media identity. -/
theorem mediaChanged_resets_playback_witness :
    (applyMediaChanged 1234 (some sampleRoom) ⟨true, 50, 1, 99⟩
        "https://youtu.be/x" MediaType.youtube).2 = ⟨false, 0, 1, 1234⟩ ∧
    (applyMediaChanged 1234 (some sampleRoom) ⟨true, 50, 1, 99⟩
        "https://youtu.be/x" MediaType.youtube).1 =
      some { sampleRoom with mediaUrl := "https://youtu.be/x",
                             mediaType := MediaType.youtube } :=
  ⟨(mediaChanged_resets_playback 1234 (some sampleRoom) ⟨true, 50, 1, 99⟩
      "https://youtu.be/x" MediaType.youtube).1,
   (mediaChanged_resets_playback 1234 (some sampleRoom) ⟨true, 50, 1, 99⟩
      "https://youtu.be/x" MediaType.youtube).2 sampleRoom rfl⟩

/-- C8 counterexample: the `playback:sync` handler installs the
server-supplied state wholesale, so a sync payload carrying wall-clock 0
drives `lastUpdated` from 1000 down to 0 — the field is not monotone
under arbitrary server payloads. -/
theorem playback_lastUpdated_decrease_counterexample :
    (applyPlaybackEvent 2000 ⟨true, 10, 1, 1000⟩
        (.sync ⟨false, 0, 1, 0⟩)).lastUpdated <
    (⟨true, 10, 1, 1000⟩ : PlaybackState).lastUpdated := by
  norm_num [applyPlaybackEvent]

/-- C8 amended: for the play, pause and seek handlers — which stamp the
state with the handler's own `Date.now()` — `lastUpdated` never
decreases as long as the local clock reading is at least the stored
timestamp; only the sync handler, which adopts the server payload
verbatim, can move it backwards. -/
theorem playback_lastUpdated_monotone (now : ℚ) (st : PlaybackState)
    (e : PlaybackEvent) (hnow : st.lastUpdated ≤ now)
    (hsync : ∀ s, e ≠ PlaybackEvent.sync s) :
    st.lastUpdated ≤ (applyPlaybackEvent now st e).lastUpdated := by
  cases e with
  | sync s => exact absurd rfl (hsync s)
  | play t => exact hnow
  | pause t => exact hnow
  | seek t => exact hnow

/-- Witness for C8 amended at a concrete input: a pause event stamped at
a later clock reading does not decrease `lastUpdated`. -/
theorem playback_lastUpdated_monotone_witness :
    (⟨true, 10, 1, 1000⟩ : PlaybackState).lastUpdated ≤
    (applyPlaybackEvent 1500 ⟨true, 10, 1, 1000⟩
        (.pause 20)).lastUpdated :=
  playback_lastUpdated_monotone 1500 ⟨true, 10, 1, 1000⟩ (.pause 20)
    (by norm_num) (fun s h => by cases h)

/-- C10: `sendMessage` emits nothing when the trimmed content is empty
(and it mutates no state: the action is a pure emission decision), and
it emits a chat command exactly when the trimmed content is non-empty
and a socket is attached. -/
theorem sendMessage_trim_guard (socketPresent : Bool) (content : String) :
    (jsTrim content = "" → sendMessage socketPresent content = none) ∧
    (∀ c, sendMessage socketPresent content = some c ↔
      jsTrim content ≠ "" ∧ socketPresent = true ∧
        c = Command.chatSend content) := by
  constructor
  · intro h
    simp [sendMessage, h]
  · intro c
    unfold sendMessage
    split
    · rename_i hcond
      simp only [Option.some.injEq]
      constructor
      · intro h
        exact ⟨hcond.1, hcond.2, h.symm⟩
      · intro h
        exact h.2.2.symm
    · rename_i hcond
      simp only [false_iff, reduceCtorEq]
      intro h
      exact hcond ⟨h.1, h.2.1⟩

/-- Witness for C10 at concrete inputs: whitespace-only content emits
nothing even with a socket attached; non-blank content emits the chat
command. -/
theorem sendMessage_trim_guard_witness :
    sendMessage true "  " = none ∧
    sendMessage true " hi " = some (Command.chatSend " hi ") := by
  constructor
  · exact (sendMessage_trim_guard true "  ").1 (by decide)
  · exact ((sendMessage_trim_guard true " hi ").2
      (Command.chatSend " hi ")).mpr ⟨by decide, rfl, rfl⟩

/-! ### Voice mesh lemmas -/

/-- Remote ids currently bound in a peer-connection map. -/
def keysOf (m : List (String × Nat)) : List String :=
  m.map Prod.fst

/-- Keys of a cons cell. -/
lemma keysOf_cons (e : String × Nat) (m : List (String × Nat)) :
    keysOf (e :: m) = e.1 :: keysOf m := rfl

/-- Insertion into a map whose head already carries the key. -/
lemma mapSet_cons_eq {e : String × Nat} {rest : List (String × Nat)}
    {k : String} {v : Nat} (h : e.1 = k) :
    mapSet (e :: rest) k v = (k, v) :: rest := by
  simp [mapSet, h]

/-- Insertion into a map whose head carries a different key. -/
lemma mapSet_cons_ne {e : String × Nat} {rest : List (String × Nat)}
    {k : String} {v : Nat} (h : ¬e.1 = k) :
    mapSet (e :: rest) k v = e :: mapSet rest k v := by
  simp [mapSet, h]

/-- A key of `mapSet m k v` is a key of `m` or the inserted key. -/
lemma mem_keysOf_mapSet {m : List (String × Nat)} {k : String} {v : Nat}
    {a : String} (h : a ∈ keysOf (mapSet m k v)) : a ∈ keysOf m ∨ a = k := by
  induction m with
  | nil =>
      simp only [mapSet, keysOf, List.map_cons, List.map_nil,
        List.mem_singleton] at h
      exact Or.inr h
  | cons e rest ih =>
      by_cases he : e.1 = k
      · rw [mapSet_cons_eq he, keysOf_cons] at h
        rcases List.mem_cons.mp h with h | h
        · exact Or.inr h
        · exact Or.inl (by rw [keysOf_cons]; exact List.mem_cons_of_mem _ h)
      · rw [mapSet_cons_ne he, keysOf_cons] at h
        rcases List.mem_cons.mp h with h | h
        · exact Or.inl (by rw [keysOf_cons]; exact h ▸ List.mem_cons_self _ _)
        · rcases ih h with h2 | h2
          · exact Or.inl (by rw [keysOf_cons]; exact List.mem_cons_of_mem _ h2)
          · exact Or.inr h2

/-- `mapSet` preserves distinctness of the keys. -/
lemma nodup_keysOf_mapSet {m : List (String × Nat)} {k : String} {v : Nat}
    (h : (keysOf m).Nodup) : (keysOf (mapSet m k v)).Nodup := by
  induction m with
  | nil => simp [mapSet, keysOf]
  | cons e rest ih =>
      rw [keysOf_cons, List.nodup_cons] at h
      by_cases he : e.1 = k
      · rw [mapSet_cons_eq he, keysOf_cons, List.nodup_cons]
        exact ⟨he ▸ h.1, h.2⟩
      · rw [mapSet_cons_ne he, keysOf_cons, List.nodup_cons]
        refine ⟨fun hmem => ?_, ih h.2⟩
        rcases mem_keysOf_mapSet hmem with h2 | h2
        · exact h.1 h2
        · exact he h2

/-- Removing a binding preserves distinctness of the keys. -/
lemma nodup_keysOf_mapDelete {m : List (String × Nat)} {k : String}
    (h : (keysOf m).Nodup) : (keysOf (mapDelete m k)).Nodup :=
  List.Nodup.sublist ((List.filter_sublist m).map Prod.fst) h

/-- `createPeerConnection` does not touch the voice roster. -/
lemma createPeerConnection_participants (st : VoiceState) (p : String)
    (i : Bool) :
    (createPeerConnection st p i).voiceParticipants = st.voiceParticipants := by
  unfold createPeerConnection
  split <;> rfl

/-- `createPeerConnection` does not change whether the client is in the
call. -/
lemma createPeerConnection_isInCall (st : VoiceState) (p : String)
    (i : Bool) :
    (createPeerConnection st p i).isInCall = st.isInCall := by
  unfold createPeerConnection
  split <;> rfl

/-- `createPeerConnection` preserves distinctness of the map keys. -/
lemma nodup_pcMap_createPeerConnection (st : VoiceState) (p : String)
    (i : Bool) (h : (keysOf st.pcMap).Nodup) :
    (keysOf (createPeerConnection st p i).pcMap).Nodup := by
  unfold createPeerConnection
  split
  · exact nodup_keysOf_mapSet h
  · exact h

/-- `cleanupPeerConnection` preserves distinctness of the map keys. -/
lemma nodup_pcMap_cleanupPeerConnection (st : VoiceState) (p : String)
    (h : (keysOf st.pcMap).Nodup) :
    (keysOf (cleanupPeerConnection st p).pcMap).Nodup := by
  unfold cleanupPeerConnection
  split
  · exact nodup_keysOf_mapDelete h
  · exact h

/-- The connection-creating fold of the roster handler preserves
distinctness of the map keys. -/
lemma nodup_pcMap_rosterFold (me : String) (ps : List VoiceParticipant) :
    ∀ st : VoiceState, (keysOf st.pcMap).Nodup →
    (keysOf (ps.foldl
      (fun s p =>
        if p.id ≠ me ∧ s.isInCall then createPeerConnection s p.id true
        else s) st).pcMap).Nodup := by
  induction ps with
  | nil => intro st h; exact h
  | cons p rest ih =>
      intro st h
      simp only [List.foldl_cons]
      split
      · exact ih _ (nodup_pcMap_createPeerConnection st p.id true h)
      · exact ih _ h

/-- One voice event preserves distinctness of the map keys. -/
lemma nodup_pcMap_applyVoiceEvent (me : String) (st : VoiceState)
    (e : VoiceEvent) (h : (keysOf st.pcMap).Nodup) :
    (keysOf (applyVoiceEvent me st e).pcMap).Nodup := by
  cases e with
  | roster ps =>
      exact nodup_pcMap_rosterFold me ps _ h
  | joined p =>
      simp only [applyVoiceEvent, onVoiceParticipantJoined]
      split
      · exact nodup_pcMap_createPeerConnection _ p.id false h
      · exact h
  | left pid =>
      exact nodup_pcMap_cleanupPeerConnection _ pid h
  | muted pid m => exact h
  | offer fromId =>
      simp only [applyVoiceEvent, onVoiceOffer]
      split
      · exact h
      · exact nodup_pcMap_createPeerConnection _ fromId false h

/-- Fresh in-call voice state: microphone acquired, socket attached, no
connections yet. -/
def voiceStart : VoiceState := ⟨0, [], [], [], true, true, true⟩

/-- Sample remote voice participant. -/
def vB : VoiceParticipant := ⟨"b", "Bob", false⟩

/-- Voice state in which one connection (identity 0) is already stored
for remote participant `b`. -/
def voiceWithB : VoiceState := ⟨1, [("b", 0)], [("b", 0)], [vB], true, true, true⟩

/-- C5 counterexample: participant `b` appears in the roster answer and
again in a late `participant-joined` duplicate; both handlers call
`createPeerConnection` unconditionally, so two `RTCPeerConnection`
objects for the same unordered pair are constructed and the first is
overwritten in the map without being closed — two open connections to
`b` exist. -/
theorem duplicate_peerlink_counterexample :
    openCountFor
      (applyVoiceEvents "a" voiceStart [.roster [vB], .joined vB]) "b" = 2 ∧
    mapGet
      (applyVoiceEvents "a" voiceStart [.roster [vB], .joined vB]).pcMap
      "b" = some 1 := by
  constructor <;> rfl

/-- C5 amended: the peer-connection map itself holds at most one binding
per remote id after any event sequence (insertion overwrites in place,
so distinct keys are preserved), and the offer handler is the only
creation path guarded by a create-iff-absent check — an offer for a peer
with a stored connection changes nothing. The roster and
participant-joined handlers create unconditionally, which is what the
counterexample exploits. -/
theorem peer_connection_map_dedup (me : String) (st : VoiceState)
    (events : List VoiceEvent) (h : (keysOf st.pcMap).Nodup) :
    (keysOf (applyVoiceEvents me st events).pcMap).Nodup ∧
    (∀ f pc, mapGet st.pcMap f = some pc →
      applyVoiceEvent me st (.offer f) = st) := by
  constructor
  · induction events generalizing st with
    | nil => exact h
    | cons e rest ih =>
        exact ih _ (nodup_pcMap_applyVoiceEvent me st e h)
  · intro f pc hf
    simp only [applyVoiceEvent, onVoiceOffer, hf]

/-- Witness for C5 amended at a concrete input: starting from a state
with one stored connection for `b`, a duplicate roster/joined pair
leaves the map keys distinct, and an offer from `b` is a no-op. -/
theorem peer_connection_map_dedup_witness :
    (keysOf (applyVoiceEvents "a" voiceWithB
      [.roster [vB], .joined vB]).pcMap).Nodup ∧
    applyVoiceEvent "a" voiceWithB (.offer "b") = voiceWithB :=
  ⟨(peer_connection_map_dedup "a" voiceWithB [.roster [vB], .joined vB]
      (by decide)).1,
   (peer_connection_map_dedup "a" voiceWithB [.roster [vB], .joined vB]
      (by decide)).2 "b" 0 rfl⟩

/-- C6 counterexample: an ICE candidate arriving from `b` before any
peer connection exists for `b` is silently discarded by the handler —
the component keeps no candidate buffer, so nothing is ever applied
later. -/
theorem early_ice_candidate_dropped_counterexample :
    onIceCandidate voiceStart "b" true = IceOutcome.dropped := rfl

/-- C6 amended: a candidate whose sender has a stored peer connection is
handed straight to that connection's `addIceCandidate` (any queueing
relative to the remote description is left to the transport); a
candidate whose sender has no stored connection is dropped — the
component neither buffers it nor applies it later. -/
theorem ice_candidate_requires_connection (st : VoiceState)
    (fromId : String) :
    (mapGet st.pcMap fromId = none →
      onIceCandidate st fromId true = IceOutcome.dropped) ∧
    (∀ pc, mapGet st.pcMap fromId = some pc →
      onIceCandidate st fromId true = IceOutcome.handedToTransport pc) := by
  constructor
  · intro h
    simp [onIceCandidate, h]
  · intro pc h
    simp [onIceCandidate, h]

/-- Witness for C6 amended at concrete inputs: with no stored connection
the candidate is dropped; with connection 0 stored for `b` it is handed
to the transport. -/
theorem ice_candidate_requires_connection_witness :
    onIceCandidate voiceStart "b" true = IceOutcome.dropped ∧
    onIceCandidate voiceWithB "b" true = IceOutcome.handedToTransport 0 :=
  ⟨(ice_candidate_requires_connection voiceStart "b").1 rfl,
   (ice_candidate_requires_connection voiceWithB "b").2 0 rfl⟩

/-- Invariant on the local voice roster: the local id never appears and
ids are pairwise distinct. -/
def rosterOk (me : String) (l : List VoiceParticipant) : Prop :=
  (∀ p ∈ l, p.id ≠ me) ∧ (l.map VoiceParticipant.id).Nodup

/-- Well-formedness of a voice event payload: a roster snapshot carries
distinct ids and a joined broadcast never carries the local id. -/
def goodVoiceEvent (me : String) : VoiceEvent → Prop
  | .roster ps => (ps.map VoiceParticipant.id).Nodup
  | .joined p => p.id ≠ me
  | .left _ => True
  | .muted _ _ => True
  | .offer _ => True

/-- The connection-creating fold of the roster handler does not touch
the voice roster. -/
lemma rosterFold_participants (me : String) (ps : List VoiceParticipant) :
    ∀ st : VoiceState,
    (ps.foldl
      (fun s p =>
        if p.id ≠ me ∧ s.isInCall then createPeerConnection s p.id true
        else s) st).voiceParticipants = st.voiceParticipants := by
  induction ps with
  | nil => intro st; rfl
  | cons p rest ih =>
      intro st
      simp only [List.foldl_cons]
      split
      · rw [ih, createPeerConnection_participants]
      · rw [ih]

/-- `cleanupPeerConnection` does not touch the voice roster. -/
lemma cleanupPeerConnection_participants (st : VoiceState) (p : String) :
    (cleanupPeerConnection st p).voiceParticipants = st.voiceParticipants := by
  unfold cleanupPeerConnection
  split <;> rfl

/-- `onVoiceOffer` does not touch the voice roster. -/
lemma onVoiceOffer_participants (me : String) (st : VoiceState)
    (f : String) :
    (onVoiceOffer me st f).voiceParticipants = st.voiceParticipants := by
  unfold onVoiceOffer
  split
  · rfl
  · exact createPeerConnection_participants _ _ _

/-- Updating mute flags does not change the list of roster ids. -/
lemma muted_map_ids (l : List VoiceParticipant) (pid : String) (m : Bool) :
    ((l.map fun p => if p.id = pid then { p with isMuted := m } else p).map
      VoiceParticipant.id) = l.map VoiceParticipant.id := by
  induction l with
  | nil => rfl
  | cons q rest ih =>
      by_cases hq : q.id = pid <;> simp [hq, ih]

/-- One well-formed voice event preserves the roster invariant. -/
lemma rosterOk_applyVoiceEvent (me : String) (st : VoiceState)
    (e : VoiceEvent) (h : rosterOk me st.voiceParticipants)
    (hg : goodVoiceEvent me e) :
    rosterOk me (applyVoiceEvent me st e).voiceParticipants := by
  cases e with
  | roster ps =>
      simp only [applyVoiceEvent, onVoiceParticipants]
      rw [rosterFold_participants]
      constructor
      · intro p hp
        have := List.mem_filter.mp hp
        simpa using this.2
      · exact List.Nodup.sublist ((List.filter_sublist ps).map _) hg
  | joined p =>
      simp only [applyVoiceEvent, onVoiceParticipantJoined]
      have hres : ∀ l, l = (st.voiceParticipants.filter
          fun q => q.id ≠ p.id) ++ [p] → rosterOk me l := by
        intro l hl
        subst hl
        constructor
        · intro q hq
          rcases List.mem_append.mp hq with hq | hq
          · exact h.1 q (List.mem_of_mem_filter hq)
          · rw [List.mem_singleton.mp hq]
            exact hg
        · rw [List.map_append, List.nodup_append]
          refine ⟨List.Nodup.sublist
              ((List.filter_sublist st.voiceParticipants).map _) h.2,
            List.nodup_singleton _, ?_⟩
          intro a ha hb
          rw [List.map_singleton, List.mem_singleton] at hb
          rcases List.mem_map.mp ha with ⟨q, hq, rfl⟩
          have := List.mem_filter.mp hq
          have hne : q.id ≠ p.id := by simpa using this.2
          exact hne hb
      split
      · rw [createPeerConnection_participants]
        exact hres _ rfl
      · exact hres _ rfl
  | left pid =>
      simp only [applyVoiceEvent, onVoiceParticipantLeft]
      rw [cleanupPeerConnection_participants]
      constructor
      · intro q hq
        exact h.1 q (List.mem_of_mem_filter hq)
      · exact List.Nodup.sublist
          ((List.filter_sublist st.voiceParticipants).map _) h.2
  | muted pid m =>
      simp only [applyVoiceEvent, onVoiceParticipantMuted]
      constructor
      · intro q hq
        rcases List.mem_map.mp hq with ⟨r, hr, rfl⟩
        have hid : (if r.id = pid then { r with isMuted := m } else r).id
            = r.id := by
          split <;> rfl
        rw [hid]
        exact h.1 r hr
      · rw [muted_map_ids]
        exact h.2
  | offer f =>
      simp only [applyVoiceEvent]
      rw [onVoiceOffer_participants]
      exact h

/-- C9 counterexample: a `voice:participant-joined` event whose payload
carries the local participant's own id is appended to the roster — the
handler dedups by id but never excludes the local id, unlike the roster
handler. -/
theorem voice_own_id_counterexample :
    (applyVoiceEvent "a" voiceStart
        (.joined ⟨"a", "Alice", false⟩)).voiceParticipants
      = [⟨"a", "Alice", false⟩] ∧
    ¬ (∀ p ∈ (applyVoiceEvent "a" voiceStart
        (.joined ⟨"a", "Alice", false⟩)).voiceParticipants, p.id ≠ "a") := by
  constructor
  · rfl
  · decide

/-- C9 amended: provided every roster payload carries distinct ids and
no joined broadcast carries the local id (the server never echoes the
local participant back as a joiner), the local voice roster never
contains the local id and never contains two entries with the same id,
after any sequence of roster, joined, left and muted (and offer)
events; the joined handler removes any entry with the incoming id
before appending. -/
theorem voice_roster_invariant (me : String) (st : VoiceState)
    (events : List VoiceEvent)
    (h0 : ∀ p ∈ st.voiceParticipants, p.id ≠ me)
    (h1 : (st.voiceParticipants.map VoiceParticipant.id).Nodup)
    (hg : ∀ e ∈ events, goodVoiceEvent me e) :
    (∀ p ∈ (applyVoiceEvents me st events).voiceParticipants, p.id ≠ me) ∧
    ((applyVoiceEvents me st events).voiceParticipants.map
      VoiceParticipant.id).Nodup := by
  induction events generalizing st with
  | nil => exact ⟨h0, h1⟩
  | cons e rest ih =>
      have hstep := rosterOk_applyVoiceEvent me st e ⟨h0, h1⟩
        (hg e (List.mem_cons_self e rest))
      exact ih _ hstep.1 hstep.2
        (fun x hx => hg x (List.mem_cons_of_mem _ hx))

/-- Witness for C9 amended at a concrete input: a roster for `b`, a
duplicate joined broadcast for `b`, a mute toggle and a leave, replayed
from the empty roster, keep the invariant. -/
theorem voice_roster_invariant_witness :
    (∀ p ∈ (applyVoiceEvents "a" voiceStart
        [.roster [vB], .joined vB, .muted "b" true,
         .left "b"]).voiceParticipants, p.id ≠ "a") ∧
    ((applyVoiceEvents "a" voiceStart
        [.roster [vB], .joined vB, .muted "b" true,
         .left "b"]).voiceParticipants.map VoiceParticipant.id).Nodup :=
  voice_roster_invariant "a" voiceStart
    [.roster [vB], .joined vB, .muted "b" true, .left "b"]
    (by simp [voiceStart]) (by simp [voiceStart])
    (by
      intro e he
      simp only [List.mem_cons, List.mem_singleton] at he
      rcases he with rfl | rfl | rfl | rfl | h
      · exact (by decide : ([vB].map VoiceParticipant.id).Nodup)
      · exact (by decide : vB.id ≠ "a")
      · trivial
      · trivial
      · cases h)

end WatchParty
